import Mathlib

/-!
Shallow embedding of the diyjvm class-file decoder (src/main.c) over byte
lists. The input stream is a `List Nat` of byte values; each `read_*`
primitive consumes bytes from the front, mirroring `safe_fread` in
`main.c` (a short read is `truncatedInput`). Forward seeks over skipped
regions mirror `fseek(fp, n, SEEK_CUR)` on a regular file, which succeeds
even past end of file; a position past the end behaves exactly like end
of file for every later read, so dropping up to `n` bytes is
observationally faithful.
-/

namespace DiyJvm

/-- Byte stream: the remaining input, one natural number (byte value) per cell. -/
abbrev Bytes := List Nat

/-- Fatal error outcomes of the decoder. Each constructor corresponds to one
`ERROR_AND_CLEANUP` site in `main.c` or to a short read inside `safe_fread`
(in the byte-list model an underlying device error is indistinguishable from
end of input, so both surface as `truncatedInput`). -/
inductive DecodeError where
  | truncatedInput
  | formatMismatch
  | unsupportedVersion
  | invalidPoolCount
  | utf8TooLong
  | methodCountTooLarge
  | invalidReference
deriving Repr, DecidableEq

deriving instance DecidableEq for Except

def JAVA_MAGIC : Nat := 0xCAFEBABE

def MAX_STRING_LENGTH : Nat := 65535

def MAX_CONSTANT_POOL_SIZE : Nat := 32767

def CONSTANT_Class : Nat := 7

def CONSTANT_Fieldref : Nat := 9

def CONSTANT_Methodref : Nat := 10

def CONSTANT_InterfaceMethodref : Nat := 11

def CONSTANT_String : Nat := 8

def CONSTANT_Integer : Nat := 3

def CONSTANT_Float : Nat := 4

def CONSTANT_Long : Nat := 5

def CONSTANT_Double : Nat := 6

def CONSTANT_NameAndType : Nat := 12

def CONSTANT_Utf8 : Nat := 1

/-- Value of a big-endian 2-byte field, as assembled by `read_u2`. -/
def u2val (b1 b2 : Nat) : Nat := b1 * 256 + b2

/-- Value of a big-endian 4-byte field, as assembled by `read_u4`. -/
def u4val (b1 b2 b3 b4 : Nat) : Nat := ((b1 * 256 + b2) * 256 + b3) * 256 + b4

/-- Model of `read_u1`: one byte, or a truncation error. -/
def readU1 : Bytes → Except DecodeError (Nat × Bytes)
  | [] => .error .truncatedInput
  | b :: s => .ok (b, s)

/-- Model of `read_u2`: two bytes assembled big-endian, or a truncation error. -/
def readU2 : Bytes → Except DecodeError (Nat × Bytes)
  | b1 :: b2 :: s => .ok (u2val b1 b2, s)
  | _ => .error .truncatedInput

/-- Model of `read_u4`: four bytes assembled big-endian, or a truncation error. -/
def readU4 : Bytes → Except DecodeError (Nat × Bytes)
  | b1 :: b2 :: b3 :: b4 :: s => .ok (u4val b1 b2 b3 b4, s)
  | _ => .error .truncatedInput

/-- Model of `safe_fread(buf, 1, n, fp)`: materialize exactly `n` bytes,
or fail with a truncation error when fewer remain. -/
def readBytesN : Nat → Bytes → Except DecodeError (List Nat × Bytes)
  | 0, s => .ok ([], s)
  | _ + 1, [] => .error .truncatedInput
  | n + 1, b :: s =>
    match readBytesN n s with
    | .error e => .error e
    | .ok (bs, s2) => .ok (b :: bs, s2)

/-- Model of `fseek(fp, n, SEEK_CUR)` over a regular file: always succeeds,
advancing the position by `n` (a position past end of file reads as end of
file, which `List.drop` reflects by clamping). -/
def skipBytes (n : Nat) (s : Bytes) : Bytes := s.drop n

/-- The decoded form of one `cp_info` slot, one variant per arm of the
`switch` in `read_constant_pool_entry` plus the `default` arm. -/
inductive CpInfo where
  | classInfo (name_index : Nat)
  | utf8Info (length : Nat) (bytes : List Nat)
  | integerInfo (bytes : Nat)
  | stringInfo (string_index : Nat)
  | methodrefInfo (tag : Nat) (class_index : Nat) (name_and_type_index : Nat)
  | nameAndTypeInfo (name_index : Nat) (descriptor_index : Nat)
  | longInfo (tag : Nat) (high_bytes : Nat) (low_bytes : Nat)
  | unknownTag (tag : Nat)
deriving Repr, DecidableEq

/-- Body of the `CONSTANT_Utf8` arm after its length field has been read:
the oversize guard, then the content bytes (the C code also appends a NUL
terminator to the owned buffer; the model keeps just the `length` content
bytes, the terminator being an internal convenience). -/
def readUtf8Body (len : Nat) (s : Bytes) : Except DecodeError (CpInfo × Nat × Bytes) :=
  if len > MAX_STRING_LENGTH then .error .utf8TooLong
  else
    match readBytesN len s with
    | .error e => .error e
    | .ok (bytes, s2) => .ok (.utf8Info len bytes, 1, s2)

/-- Model of `read_constant_pool_entry`: returns the decoded entry, the
number of constant-pool slots it occupies (2 for `CONSTANT_Long` and
`CONSTANT_Double`, otherwise 1), and the rest of the stream. -/
def readConstantPoolEntry (s : Bytes) : Except DecodeError (CpInfo × Nat × Bytes) :=
  match readU1 s with
  | .error e => .error e
  | .ok (tag, s1) =>
    if tag = CONSTANT_Class then
      match readU2 s1 with
      | .error e => .error e
      | .ok (ni, s2) => .ok (.classInfo ni, 1, s2)
    else if tag = CONSTANT_Utf8 then
      match readU2 s1 with
      | .error e => .error e
      | .ok (len, s2) => readUtf8Body len s2
    else if tag = CONSTANT_Integer then
      match readU4 s1 with
      | .error e => .error e
      | .ok (v, s2) => .ok (.integerInfo v, 1, s2)
    else if tag = CONSTANT_String then
      match readU2 s1 with
      | .error e => .error e
      | .ok (si, s2) => .ok (.stringInfo si, 1, s2)
    else if tag = CONSTANT_Fieldref ∨ tag = CONSTANT_Methodref ∨
        tag = CONSTANT_InterfaceMethodref then
      match readU2 s1 with
      | .error e => .error e
      | .ok (ci, s2) =>
        match readU2 s2 with
        | .error e => .error e
        | .ok (nti, s3) => .ok (.methodrefInfo tag ci nti, 1, s3)
    else if tag = CONSTANT_NameAndType then
      match readU2 s1 with
      | .error e => .error e
      | .ok (ni, s2) =>
        match readU2 s2 with
        | .error e => .error e
        | .ok (di, s3) => .ok (.nameAndTypeInfo ni di, 1, s3)
    else if tag = CONSTANT_Long ∨ tag = CONSTANT_Double then
      match readU4 s1 with
      | .error e => .error e
      | .ok (hi, s2) =>
        match readU4 s2 with
        | .error e => .error e
        | .ok (lo, s3) => .ok (.longInfo tag hi lo, 2, s3)
    else
      .ok (.unknownTag tag, 1, s1)

/-- Every successfully decoded pool entry occupies at least one slot
(the C function returns 1 or 2 on success, never 0). -/
theorem readConstantPoolEntry_step_pos {s : Bytes} {e : CpInfo} {st : Nat} {s2 : Bytes}
    (h : readConstantPoolEntry s = .ok (e, st, s2)) : 0 < st := by
  unfold readConstantPoolEntry readUtf8Body at h
  repeat' split at h
  all_goals simp_all
  all_goals obtain ⟨-, hst, -⟩ := h
  all_goals omega

/-- Write a decoded entry into slot `i` of the pool table (in-bounds write of
`cf->constant_pool[i]`; out of bounds leaves the table unchanged, which the
driving loop's bound check makes unreachable). -/
def setSlot : List (Option CpInfo) → Nat → CpInfo → List (Option CpInfo)
  | [], _, _ => []
  | _ :: rest, 0, e => some e :: rest
  | b :: rest, i + 1, e => b :: setSlot rest i e

/-- Read pool slot `i`; `none` models a slot the decode loop never wrote
(`calloc` zero-fill), including everything out of bounds. -/
def getSlot : List (Option CpInfo) → Nat → Option CpInfo
  | [], _ => none
  | b :: _, 0 => b
  | _ :: rest, i + 1 => getSlot rest i

/-- The constant-pool driving loop of `read_class_file`, with an explicit
iteration bound: the first argument only exhibits termination (every entry
consumes at least one of the `count - i` remaining slots, so `count - i`
iterations always suffice; see `readConstantPoolFuel_congr`), and the body
mirrors `for (int i = 1; i < count;) { step = read(...); i += step; }`. -/
def readConstantPoolFuel : Nat → Nat → Nat → List (Option CpInfo) → Bytes →
    Except DecodeError (List (Option CpInfo) × Bytes)
  | 0, _, _, pool, s => .ok (pool, s)
  | fuel + 1, count, i, pool, s =>
    if i < count then
      match readConstantPoolEntry s with
      | .error e => .error e
      | .ok (entry, step, s2) =>
        readConstantPoolFuel fuel count (i + step) (setSlot pool i entry) s2
    else .ok (pool, s)

/-- Model of the constant-pool driving loop in `read_class_file`, starting
from slot index `i` over the table `pool` and the stream `s`. -/
def readConstantPool (count : Nat) (i : Nat) (pool : List (Option CpInfo)) (s : Bytes) :
    Except DecodeError (List (Option CpInfo) × Bytes) :=
  readConstantPoolFuel (count - i) count i pool s

/-- The retained part of a `Code` attribute (`code_attribute` in the header):
sizing metadata plus the raw instruction bytes, copied verbatim. -/
structure CodeAttribute where
  max_stack : Nat
  max_locals : Nat
  code_length : Nat
  code : List Nat
deriving Repr, DecidableEq

/-- One decoded method record (`method_info`). -/
structure MethodInfo where
  access_flags : Nat
  name_index : Nat
  descriptor_index : Nat
  attributes_count : Nat
  code_attribute : Option CodeAttribute
deriving Repr, DecidableEq

/-- The decoded container (`ClassFile`). -/
structure ClassFile where
  magic : Nat
  minor_version : Nat
  major_version : Nat
  constant_pool_count : Nat
  constant_pool : List (Option CpInfo)
  access_flags : Nat
  this_class : Nat
  super_class : Nat
  interfaces_count : Nat
  fields_count : Nat
  methods_count : Nat
  methods : List MethodInfo
deriving Repr, DecidableEq

/-- Content of a stored UTF8 buffer up to (excluding) its first NUL byte.
The C code appends a terminating NUL after the content (`bytes[length] = 0`),
so `strcmp` on the stored buffer compares exactly this prefix. -/
def takeToNul : List Nat → List Nat
  | [] => []
  | 0 :: _ => []
  | b :: rest => b :: takeToNul rest

/-- The byte content of the literal string compared against attribute names. -/
def codeLiteral : List Nat := [67, 111, 100, 101]

/-- The dispatch test of the member-attribute loop:
`attrName->tag == CONSTANT_Utf8 && strcmp(attrName->info.utf8_info.bytes, "Code") == 0`
applied to the referenced pool slot (an unwritten slot has tag 0, never UTF8). -/
def isCodeEntry : Option CpInfo → Bool
  | some (.utf8Info _ bytes) => takeToNul bytes == codeLiteral
  | _ => false

/-- Skip loop over the sub-attributes inside a `Code` attribute: for each,
read a 2-byte name index and a 4-byte length, then seek over that many bytes. -/
def skipCodeSubAttrs : Nat → Bytes → Except DecodeError Bytes
  | 0, s => .ok s
  | k + 1, s =>
    match readU2 s with
    | .error e => .error e
    | .ok (_, s1) =>
      match readU4 s1 with
      | .error e => .error e
      | .ok (len, s2) => skipCodeSubAttrs k (skipBytes len s2)

/-- Model of the `Code`-attribute branch of the member-attribute loop:
max_stack, max_locals, code_length, the raw code bytes (materialized), then
the exception table (seeked over, 8 bytes per entry) and the sub-attribute
list (seeked over per declared length). -/
def readCodeAttribute (s : Bytes) : Except DecodeError (CodeAttribute × Bytes) :=
  match readU2 s with
  | .error e => .error e
  | .ok (maxStack, s1) =>
    match readU2 s1 with
    | .error e => .error e
    | .ok (maxLocals, s2) =>
      match readU4 s2 with
      | .error e => .error e
      | .ok (codeLen, s3) =>
        match readBytesN codeLen s3 with
        | .error e => .error e
        | .ok (codeBytes, s4) =>
          match readU2 s4 with
          | .error e => .error e
          | .ok (exLen, s5) =>
            match readU2 (skipBytes (exLen * 8) s5) with
            | .error e => .error e
            | .ok (subCount, s6) =>
              match skipCodeSubAttrs subCount s6 with
              | .error e => .error e
              | .ok s7 =>
                .ok ({ max_stack := maxStack, max_locals := maxLocals,
                       code_length := codeLen, code := codeBytes }, s7)

/-- Model of one iteration of the member-attribute loop: read the 2-byte
name index and 4-byte length; an out-of-range name index is fatal
(`attribute_name_index out of range`); a referenced `"Code"` UTF8 entry
dispatches into `readCodeAttribute` (replacing any previously retained code
attribute); anything else is seeked over by its declared length, retaining
nothing. -/
def readMethodAttribute (pool : List (Option CpInfo)) (count : Nat)
    (cur : Option CodeAttribute) (s : Bytes) :
    Except DecodeError (Option CodeAttribute × Bytes) :=
  match readU2 s with
  | .error e => .error e
  | .ok (nameIdx, s1) =>
    match readU4 s1 with
    | .error e => .error e
    | .ok (attrLen, s2) =>
      if nameIdx < count then
        if isCodeEntry (getSlot pool nameIdx) then
          match readCodeAttribute s2 with
          | .error e => .error e
          | .ok (code, s3) => .ok (some code, s3)
        else
          .ok (cur, skipBytes attrLen s2)
      else
        .error .invalidReference

/-- The member-attribute loop, iterated `attributes_count` times. -/
def readMethodAttributes (pool : List (Option CpInfo)) (count : Nat) :
    Nat → Option CodeAttribute → Bytes → Except DecodeError (Option CodeAttribute × Bytes)
  | 0, acc, s => .ok (acc, s)
  | j + 1, acc, s =>
    match readMethodAttribute pool count acc s with
    | .error e => .error e
    | .ok (acc2, s2) => readMethodAttributes pool count j acc2 s2

/-- Model of one iteration of the method loop: four 2-byte fields, then the
attribute loop. -/
def readMethod (pool : List (Option CpInfo)) (count : Nat) (s : Bytes) :
    Except DecodeError (MethodInfo × Bytes) :=
  match readU2 s with
  | .error e => .error e
  | .ok (acc, s1) =>
    match readU2 s1 with
    | .error e => .error e
    | .ok (nameIdx, s2) =>
      match readU2 s2 with
      | .error e => .error e
      | .ok (descIdx, s3) =>
        match readU2 s3 with
        | .error e => .error e
        | .ok (attrCount, s4) =>
          match readMethodAttributes pool count attrCount none s4 with
          | .error e => .error e
          | .ok (code, s5) =>
            .ok ({ access_flags := acc, name_index := nameIdx,
                   descriptor_index := descIdx, attributes_count := attrCount,
                   code_attribute := code }, s5)

/-- The method loop, iterated `methods_count` times. -/
def readMethods (pool : List (Option CpInfo)) (count : Nat) :
    Nat → Bytes → Except DecodeError (List MethodInfo × Bytes)
  | 0, s => .ok ([], s)
  | n + 1, s =>
    match readMethod pool count s with
    | .error e => .error e
    | .ok (m, s1) =>
      match readMethods pool count n s1 with
      | .error e => .error e
      | .ok (ms, s2) => .ok (m :: ms, s2)

/-- Skip loop over one field's attributes: name index, length, seek. -/
def skipFieldAttributes : Nat → Bytes → Except DecodeError Bytes
  | 0, s => .ok s
  | j + 1, s =>
    match readU2 s with
    | .error e => .error e
    | .ok (_, s1) =>
      match readU4 s1 with
      | .error e => .error e
      | .ok (len, s2) => skipFieldAttributes j (skipBytes len s2)

/-- Skip loop over the field records: four 2-byte fields each, then that
field's attributes, nothing retained. -/
def skipFields : Nat → Bytes → Except DecodeError Bytes
  | 0, s => .ok s
  | i + 1, s =>
    match readU2 s with
    | .error e => .error e
    | .ok (_, s1) =>
      match readU2 s1 with
      | .error e => .error e
      | .ok (_, s2) =>
        match readU2 s2 with
        | .error e => .error e
        | .ok (_, s3) =>
          match readU2 s3 with
          | .error e => .error e
          | .ok (attrCount, s4) =>
            match skipFieldAttributes attrCount s4 with
            | .error e => .error e
            | .ok s5 => skipFields i s5

/-- Model of the methods section of `read_class_file`: the 2-byte method
count, its fixed sanity ceiling of 1000 (`Method count is suspiciously
large`), then the method loop. -/
def readMethodsSection (pool : List (Option CpInfo)) (count : Nat) (s : Bytes) :
    Except DecodeError (Nat × List MethodInfo × Bytes) :=
  match readU2 s with
  | .error e => .error e
  | .ok (mc, s1) =>
    if mc > 1000 then .error .methodCountTooLarge
    else
      match readMethods pool count mc s1 with
      | .error e => .error e
      | .ok (ms, s2) => .ok (mc, ms, s2)

/-- Model of `read_class_file` from the constant-pool count onward (the part
after the magic and version checks): pool count with its ceiling, the pool
loop, class header fields, seeked-over interfaces, skipped field records,
and the methods section. -/
def readFromPoolCount (magic minor major : Nat) (s : Bytes) :
    Except DecodeError ClassFile :=
  match readU2 s with
  | .error e => .error e
  | .ok (cpCount, s1) =>
    if cpCount > MAX_CONSTANT_POOL_SIZE then .error .invalidPoolCount
    else
      match readConstantPool cpCount 1 (List.replicate cpCount none) s1 with
      | .error e => .error e
      | .ok (pool, s2) =>
        match readU2 s2 with
        | .error e => .error e
        | .ok (accessFlags, s3) =>
          match readU2 s3 with
          | .error e => .error e
          | .ok (thisClass, s4) =>
            match readU2 s4 with
            | .error e => .error e
            | .ok (superClass, s5) =>
              match readU2 s5 with
              | .error e => .error e
              | .ok (ifaceCount, s6) =>
                match readU2 (skipBytes (ifaceCount * 2) s6) with
                | .error e => .error e
                | .ok (fieldsCount, s7) =>
                  match skipFields fieldsCount s7 with
                  | .error e => .error e
                  | .ok s8 =>
                    match readMethodsSection pool cpCount s8 with
                    | .error e => .error e
                    | .ok (mc, ms, _) =>
                      .ok { magic := magic, minor_version := minor,
                            major_version := major,
                            constant_pool_count := cpCount,
                            constant_pool := pool,
                            access_flags := accessFlags,
                            this_class := thisClass,
                            super_class := superClass,
                            interfaces_count := ifaceCount,
                            fields_count := fieldsCount,
                            methods_count := mc, methods := ms }

/-- Model of `read_class_file`: magic check, version range check, then
`readFromPoolCount`. -/
def readClassFile (input : Bytes) : Except DecodeError ClassFile :=
  match readU4 input with
  | .error e => .error e
  | .ok (magic, s) =>
    if magic ≠ JAVA_MAGIC then .error .formatMismatch
    else
      match readU2 s with
      | .error e => .error e
      | .ok (minor, s1) =>
        match readU2 s1 with
        | .error e => .error e
        | .ok (major, s2) =>
          if major < 45 ∨ major > 69 then .error .unsupportedVersion
          else readFromPoolCount magic minor major s2

/-! ## Support lemmas -/

theorem length_setSlot : ∀ (pool : List (Option CpInfo)) (i : Nat) (e : CpInfo),
    (setSlot pool i e).length = pool.length := by
  intro pool
  induction pool with
  | nil => intro i e; cases i <;> rfl
  | cons b rest ih =>
    intro i e
    cases i with
    | zero => rfl
    | succ i => simp [setSlot, ih]

theorem getSlot_setSlot_self : ∀ (pool : List (Option CpInfo)) (i : Nat) (e : CpInfo),
    i < pool.length → getSlot (setSlot pool i e) i = some e := by
  intro pool
  induction pool with
  | nil => intro i e h; simp at h
  | cons b rest ih =>
    intro i e h
    cases i with
    | zero => rfl
    | succ i => exact ih i e (by simpa using h)

theorem getSlot_setSlot_ne : ∀ (pool : List (Option CpInfo)) (i j : Nat) (e : CpInfo),
    j ≠ i → getSlot (setSlot pool i e) j = getSlot pool j := by
  intro pool
  induction pool with
  | nil => intro i j e _; cases i <;> rfl
  | cons b rest ih =>
    intro i j e hne
    cases i with
    | zero =>
      cases j with
      | zero => exact absurd rfl hne
      | succ j => rfl
    | succ i =>
      cases j with
      | zero => rfl
      | succ j => simpa [setSlot, getSlot] using ih i j e (by omega)

theorem getSlot_replicate : ∀ (n j : Nat),
    getSlot (List.replicate n (none : Option CpInfo)) j = none := by
  intro n
  induction n with
  | zero => intro j; cases j <;> rfl
  | succ n ih =>
    intro j
    cases j with
    | zero => rfl
    | succ j => simpa [List.replicate_succ, getSlot] using ih j

theorem readBytesN_ok : ∀ (n : Nat) (s : Bytes) (bs : List Nat) (s2 : Bytes),
    readBytesN n s = .ok (bs, s2) →
    bs = s.take n ∧ s2 = s.drop n ∧ n ≤ s.length := by
  intro n
  induction n with
  | zero =>
    intro s bs s2 h
    simp [readBytesN] at h
    simp [h.1, h.2]
  | succ n ih =>
    intro s bs s2 h
    cases s with
    | nil => simp [readBytesN] at h
    | cons b rest =>
      simp only [readBytesN] at h
      cases hr : readBytesN n rest with
      | error e => rw [hr] at h; cases h
      | ok p =>
        obtain ⟨bs2, s3⟩ := p
        rw [hr] at h
        simp only [Except.ok.injEq, Prod.mk.injEq] at h
        obtain ⟨hbs, hs2⟩ := h
        obtain ⟨ht, hd, hl⟩ := ih rest bs2 s3 hr
        subst hbs hs2 ht hd
        refine ⟨rfl, rfl, by simpa using hl⟩

theorem readBytesN_ok_length {n : Nat} {s : Bytes} {bs : List Nat} {s2 : Bytes}
    (h : readBytesN n s = .ok (bs, s2)) : bs.length = n := by
  obtain ⟨ht, -, hl⟩ := readBytesN_ok n s bs s2 h
  subst ht
  simpa [List.length_take] using Nat.min_eq_left hl

theorem readBytesN_truncated : ∀ (n : Nat) (s : Bytes), s.length < n →
    readBytesN n s = .error .truncatedInput := by
  intro n
  induction n with
  | zero => intro s h; omega
  | succ n ih =>
    intro s h
    cases s with
    | nil => rfl
    | cons b rest =>
      have := ih rest (by simpa using Nat.lt_of_succ_lt_succ h)
      simp [readBytesN, this]

theorem readU1_truncated : ∀ (s : Bytes), s.length < 1 →
    readU1 s = .error .truncatedInput := by
  intro s h
  match s with
  | [] => rfl
  | b :: rest => simp at h

theorem readU2_truncated : ∀ (s : Bytes), s.length < 2 →
    readU2 s = .error .truncatedInput := by
  intro s h
  match s with
  | [] => rfl
  | [b] => rfl
  | b1 :: b2 :: rest => simp at h; omega

theorem readU4_truncated : ∀ (s : Bytes), s.length < 4 →
    readU4 s = .error .truncatedInput := by
  intro s h
  match s with
  | [] => rfl
  | [b] => rfl
  | [b1, b2] => rfl
  | [b1, b2, b3] => rfl
  | b1 :: b2 :: b3 :: b4 :: rest => simp at h; omega

theorem readConstantPoolEntry_longInfo_step {s : Bytes} {e : CpInfo} {st : Nat}
    {s2 : Bytes} (h : readConstantPoolEntry s = .ok (e, st, s2)) :
    ∀ t a b, e = .longInfo t a b → st = 2 := by
  intro t a b hlong
  subst hlong
  unfold readConstantPoolEntry readUtf8Body at h
  repeat' split at h
  all_goals simp_all

theorem readConstantPoolEntry_utf8_length {s : Bytes} {e : CpInfo} {st : Nat}
    {s2 : Bytes} (h : readConstantPoolEntry s = .ok (e, st, s2)) :
    ∀ len bytes, e = .utf8Info len bytes → bytes.length = len := by
  intro len bytes hutf
  subst hutf
  unfold readConstantPoolEntry readUtf8Body at h
  repeat' split at h
  all_goals simp_all
  all_goals exact readBytesN_ok_length (by assumption)

theorem getSlot_oob : ∀ (pool : List (Option CpInfo)) (j : Nat),
    pool.length ≤ j → getSlot pool j = none := by
  intro pool
  induction pool with
  | nil => intro j _; cases j <;> rfl
  | cons b rest ih =>
    intro j hj
    cases j with
    | zero => simp at hj
    | succ j => exact ih j (by simpa using hj)

theorem getSlot_setSlot_cases {pool : List (Option CpInfo)} {i j : Nat} {e x : CpInfo}
    (h : getSlot (setSlot pool i e) j = some x) :
    (j = i ∧ x = e) ∨ getSlot pool j = some x := by
  by_cases hji : j = i
  · subst hji
    by_cases hlen : j < pool.length
    · rw [getSlot_setSlot_self pool j e hlen] at h
      injection h with hx
      exact Or.inl ⟨rfl, hx.symm⟩
    · have hnone : getSlot (setSlot pool j e) j = none := by
        apply getSlot_oob
        rw [length_setSlot]
        omega
      rw [hnone] at h
      cases h
  · rw [getSlot_setSlot_ne pool i j e hji] at h
    exact Or.inr h

/-- The iteration bound of the pool loop is irrelevant as long as it covers
the `count - i` remaining slots: the loop's result is determined by
`count`, `i`, the table and the stream alone. -/
theorem readConstantPoolFuel_congr :
    ∀ (f1 f2 count i : Nat) (pool : List (Option CpInfo)) (s : Bytes),
    count - i ≤ f1 → count - i ≤ f2 →
    readConstantPoolFuel f1 count i pool s = readConstantPoolFuel f2 count i pool s := by
  intro f1
  induction f1 with
  | zero =>
    intro f2 count i pool s hf1 hf2
    have hnlt : ¬ i < count := by omega
    cases f2 with
    | zero => rfl
    | succ f2 => rw [readConstantPoolFuel, readConstantPoolFuel, if_neg hnlt]
  | succ f1 ih =>
    intro f2 count i pool s hf1 hf2
    cases f2 with
    | zero =>
      have hnlt : ¬ i < count := by omega
      rw [readConstantPoolFuel, readConstantPoolFuel, if_neg hnlt]
    | succ f2 =>
      rw [readConstantPoolFuel, readConstantPoolFuel]
      by_cases hlt : i < count
      · rw [if_pos hlt, if_pos hlt]
        cases hE : readConstantPoolEntry s with
        | error e => rfl
        | ok p =>
          obtain ⟨entry, step, s2⟩ := p
          have hstep : 0 < step := readConstantPoolEntry_step_pos hE
          exact ih f2 count (i + step) (setSlot pool i entry) s2
            (by omega) (by omega)
      · rw [if_neg hlt, if_neg hlt]

theorem readConstantPoolFuel_invariant :
    ∀ (fuel count i : Nat) (pool : List (Option CpInfo)) (s : Bytes) p2 sOut,
    readConstantPoolFuel fuel count i pool s = .ok (p2, sOut) →
    1 ≤ i →
    (∀ j, i ≤ j → getSlot pool j = none) →
    (∀ j t a b, getSlot pool j = some (.longInfo t a b) →
        getSlot pool (j + 1) = none ∧ j + 2 ≤ i) →
    getSlot p2 0 = getSlot pool 0 ∧
    (∀ j t a b, getSlot p2 j = some (.longInfo t a b) → getSlot p2 (j + 1) = none) := by
  intro fuel
  induction fuel with
  | zero =>
    intro count i pool s p2 sOut h h1 hP1 hP2
    simp only [readConstantPoolFuel, Except.ok.injEq, Prod.mk.injEq] at h
    obtain ⟨hp, hs⟩ := h
    subst hp
    exact ⟨rfl, fun j t a b hj => (hP2 j t a b hj).1⟩
  | succ fuel ih =>
    intro count i pool s p2 sOut h h1 hP1 hP2
    rw [readConstantPoolFuel] at h
    by_cases hlt : i < count
    · rw [if_pos hlt] at h
      cases hE : readConstantPoolEntry s with
      | error e => rw [hE] at h; cases h
      | ok p =>
        obtain ⟨entry, step, s2⟩ := p
        rw [hE] at h
        have hstep : 0 < step := readConstantPoolEntry_step_pos hE
        have hP1n : ∀ j, i + step ≤ j → getSlot (setSlot pool i entry) j = none := by
          intro j hj
          rw [getSlot_setSlot_ne pool i j entry (by omega)]
          exact hP1 j (by omega)
        have hP2n : ∀ j t a b, getSlot (setSlot pool i entry) j = some (.longInfo t a b) →
            getSlot (setSlot pool i entry) (j + 1) = none ∧ j + 2 ≤ i + step := by
          intro j t a b hj
          rcases getSlot_setSlot_cases hj with ⟨hji, hx⟩ | hold
          · subst hji
            have h2 : step = 2 := readConstantPoolEntry_longInfo_step hE t a b hx.symm
            constructor
            · rw [getSlot_setSlot_ne pool j (j + 1) entry (by omega)]
              exact hP1 (j + 1) (by omega)
            · omega
          · obtain ⟨hn, hle⟩ := hP2 j t a b hold
            constructor
            · rw [getSlot_setSlot_ne pool i (j + 1) entry (by omega)]
              exact hn
            · omega
        obtain ⟨hc0, hc2⟩ := ih count (i + step) (setSlot pool i entry) s2 p2 sOut h
          (by omega) hP1n hP2n
        refine ⟨?_, hc2⟩
        rw [hc0, getSlot_setSlot_ne pool i 0 entry (by omega)]
    · rw [if_neg hlt] at h
      simp only [Except.ok.injEq, Prod.mk.injEq] at h
      obtain ⟨hp, hs⟩ := h
      subst hp
      exact ⟨rfl, fun j t a b hj => (hP2 j t a b hj).1⟩

/-- Loop invariant of the constant-pool driving loop: starting at slot index
`i ≥ 1` over a table whose slots at indices `≥ i` are unwritten and whose
double-width entries below `i` are each followed by an unwritten slot, a
successful run leaves slot 0 untouched and leaves the slot after every
double-width (`Long`/`Double`) entry unwritten. -/
theorem readConstantPool_invariant (count : Nat) :
    ∀ (i : Nat) (pool : List (Option CpInfo)) (s : Bytes),
    ∀ p2 sOut, readConstantPool count i pool s = .ok (p2, sOut) →
    1 ≤ i →
    (∀ j, i ≤ j → getSlot pool j = none) →
    (∀ j t a b, getSlot pool j = some (.longInfo t a b) →
        getSlot pool (j + 1) = none ∧ j + 2 ≤ i) →
    getSlot p2 0 = getSlot pool 0 ∧
    (∀ j t a b, getSlot p2 j = some (.longInfo t a b) → getSlot p2 (j + 1) = none) := by
  intro i pool s p2 sOut h
  exact readConstantPoolFuel_invariant (count - i) count i pool s p2 sOut h

theorem readConstantPoolFuel_all (Q : CpInfo → Prop)
    (hQ : ∀ s e st s2, readConstantPoolEntry s = .ok (e, st, s2) → Q e) :
    ∀ (fuel count i : Nat) (pool : List (Option CpInfo)) (s : Bytes) p2 sOut,
    readConstantPoolFuel fuel count i pool s = .ok (p2, sOut) →
    (∀ j e, getSlot pool j = some e → Q e) →
    (∀ j e, getSlot p2 j = some e → Q e) := by
  intro fuel
  induction fuel with
  | zero =>
    intro count i pool s p2 sOut h hall
    simp only [readConstantPoolFuel, Except.ok.injEq, Prod.mk.injEq] at h
    obtain ⟨hp, hs⟩ := h
    subst hp
    exact hall
  | succ fuel ih =>
    intro count i pool s p2 sOut h hall
    rw [readConstantPoolFuel] at h
    by_cases hlt : i < count
    · rw [if_pos hlt] at h
      cases hE : readConstantPoolEntry s with
      | error e => rw [hE] at h; cases h
      | ok p =>
        obtain ⟨entry, step, s2⟩ := p
        rw [hE] at h
        refine ih count (i + step) (setSlot pool i entry) s2 p2 sOut h ?_
        intro j e hj
        rcases getSlot_setSlot_cases hj with ⟨-, hx⟩ | hold
        · exact hx ▸ hQ s entry step s2 hE
        · exact hall j e hold
    · rw [if_neg hlt] at h
      simp only [Except.ok.injEq, Prod.mk.injEq] at h
      obtain ⟨hp, hs⟩ := h
      subst hp
      exact hall

/-- Every entry the constant-pool loop writes satisfies any property `Q`
guaranteed by the single-entry decoder. -/
theorem readConstantPool_all (count : Nat) (Q : CpInfo → Prop)
    (hQ : ∀ s e st s2, readConstantPoolEntry s = .ok (e, st, s2) → Q e) :
    ∀ (i : Nat) (pool : List (Option CpInfo)) (s : Bytes),
    ∀ p2 sOut, readConstantPool count i pool s = .ok (p2, sOut) →
    (∀ j e, getSlot pool j = some e → Q e) →
    (∀ j e, getSlot p2 j = some e → Q e) := by
  intro i pool s p2 sOut h
  exact readConstantPoolFuel_all Q hQ (count - i) count i pool s p2 sOut h

theorem readU1_error {s : Bytes} {e : DecodeError} (h : readU1 s = .error e) :
    e = .truncatedInput := by
  match s with
  | [] => simp [readU1] at h; simp_all
  | b :: rest => simp [readU1] at h

theorem readU2_error {s : Bytes} {e : DecodeError} (h : readU2 s = .error e) :
    e = .truncatedInput := by
  match s with
  | [] => simp [readU2] at h; simp_all
  | [b] => simp [readU2] at h; simp_all
  | b1 :: b2 :: rest => simp [readU2] at h

theorem readU4_error {s : Bytes} {e : DecodeError} (h : readU4 s = .error e) :
    e = .truncatedInput := by
  match s with
  | [] => simp [readU4] at h; simp_all
  | [b] => simp [readU4] at h; simp_all
  | [b1, b2] => simp [readU4] at h; simp_all
  | [b1, b2, b3] => simp [readU4] at h; simp_all
  | b1 :: b2 :: b3 :: b4 :: rest => simp [readU4] at h

theorem readBytesN_error : ∀ {n : Nat} {s : Bytes} {e : DecodeError},
    readBytesN n s = .error e → e = .truncatedInput := by
  intro n
  induction n with
  | zero => intro s e h; simp [readBytesN] at h
  | succ n ih =>
    intro s e h
    cases s with
    | nil => simp [readBytesN] at h; simp_all
    | cons b rest =>
      simp only [readBytesN] at h
      cases hr : readBytesN n rest with
      | error e2 =>
        rw [hr] at h
        simp only [Except.error.injEq] at h
        exact h ▸ ih hr
      | ok p => rw [hr] at h; cases h

theorem readUtf8Body_error {len : Nat} {s : Bytes} {e : DecodeError}
    (h : readUtf8Body len s = .error e) :
    e = .truncatedInput ∨ e = .utf8TooLong := by
  unfold readUtf8Body at h
  repeat' split at h
  all_goals simp_all
  all_goals exact Or.inl (readBytesN_error (by assumption))

theorem readConstantPoolEntry_error {s : Bytes} {e : DecodeError}
    (h : readConstantPoolEntry s = .error e) :
    e = .truncatedInput ∨ e = .utf8TooLong := by
  unfold readConstantPoolEntry at h
  repeat' split at h
  all_goals simp_all
  all_goals first
    | exact Or.inl (readU1_error (by assumption))
    | exact Or.inl (readU2_error (by assumption))
    | exact Or.inl (readU4_error (by assumption))
    | exact readUtf8Body_error (by assumption)

theorem readConstantPoolFuel_error :
    ∀ (fuel count i : Nat) (pool : List (Option CpInfo)) (s : Bytes) {e : DecodeError},
    readConstantPoolFuel fuel count i pool s = .error e →
    e = .truncatedInput ∨ e = .utf8TooLong := by
  intro fuel
  induction fuel with
  | zero => intro count i pool s e h; cases h
  | succ fuel ih =>
    intro count i pool s e h
    rw [readConstantPoolFuel] at h
    by_cases hlt : i < count
    · rw [if_pos hlt] at h
      cases hE : readConstantPoolEntry s with
      | error e2 =>
        rw [hE] at h
        injection h with h2
        exact h2 ▸ readConstantPoolEntry_error hE
      | ok p =>
        obtain ⟨entry, step, s2⟩ := p
        rw [hE] at h
        exact ih count (i + step) (setSlot pool i entry) s2 h
    · rw [if_neg hlt] at h
      cases h

theorem readConstantPool_error (count : Nat) :
    ∀ (i : Nat) (pool : List (Option CpInfo)) (s : Bytes) {e : DecodeError},
    readConstantPool count i pool s = .error e →
    e = .truncatedInput ∨ e = .utf8TooLong := by
  intro i pool s e h
  exact readConstantPoolFuel_error (count - i) count i pool s h

theorem skipCodeSubAttrs_error : ∀ {k : Nat} {s : Bytes} {e : DecodeError},
    skipCodeSubAttrs k s = .error e → e = .truncatedInput := by
  intro k
  induction k with
  | zero => intro s e h; simp [skipCodeSubAttrs] at h
  | succ k ih =>
    intro s e h
    unfold skipCodeSubAttrs at h
    repeat' split at h
    all_goals try simp_all
    all_goals first
      | exact readU2_error (by assumption)
      | exact readU4_error (by assumption)
      | exact ih (by assumption)

theorem readCodeAttribute_error {s : Bytes} {e : DecodeError}
    (h : readCodeAttribute s = .error e) : e = .truncatedInput := by
  unfold readCodeAttribute at h
  repeat' split at h
  all_goals simp_all
  all_goals first
    | exact readU2_error (by assumption)
    | exact readU4_error (by assumption)
    | exact readBytesN_error (by assumption)
    | exact skipCodeSubAttrs_error (by assumption)

theorem readMethodAttribute_error {pool : List (Option CpInfo)} {count : Nat}
    {cur : Option CodeAttribute} {s : Bytes} {e : DecodeError}
    (h : readMethodAttribute pool count cur s = .error e) :
    e = .truncatedInput ∨ e = .invalidReference := by
  unfold readMethodAttribute at h
  repeat' split at h
  all_goals simp_all
  all_goals first
    | exact Or.inl (readU2_error (by assumption))
    | exact Or.inl (readU4_error (by assumption))
    | exact Or.inl (readCodeAttribute_error (by assumption))

theorem readMethodAttributes_error {pool : List (Option CpInfo)} {count : Nat} :
    ∀ {n : Nat} {cur : Option CodeAttribute} {s : Bytes} {e : DecodeError},
    readMethodAttributes pool count n cur s = .error e →
    e = .truncatedInput ∨ e = .invalidReference := by
  intro n
  induction n with
  | zero => intro cur s e h; simp [readMethodAttributes] at h
  | succ n ih =>
    intro cur s e h
    unfold readMethodAttributes at h
    repeat' split at h
    all_goals try simp_all
    all_goals first
      | exact readMethodAttribute_error (by assumption)
      | exact ih (by assumption)

theorem readMethod_error {pool : List (Option CpInfo)} {count : Nat} {s : Bytes}
    {e : DecodeError} (h : readMethod pool count s = .error e) :
    e = .truncatedInput ∨ e = .invalidReference := by
  unfold readMethod at h
  repeat' split at h
  all_goals simp_all
  all_goals first
    | exact Or.inl (readU2_error (by assumption))
    | exact readMethodAttributes_error (by assumption)

theorem readMethods_error {pool : List (Option CpInfo)} {count : Nat} :
    ∀ {n : Nat} {s : Bytes} {e : DecodeError},
    readMethods pool count n s = .error e →
    e = .truncatedInput ∨ e = .invalidReference := by
  intro n
  induction n with
  | zero => intro s e h; simp [readMethods] at h
  | succ n ih =>
    intro s e h
    unfold readMethods at h
    repeat' split at h
    all_goals simp_all
    all_goals first
      | exact readMethod_error (by assumption)
      | exact ih (by assumption)

theorem skipFieldAttributes_error : ∀ {n : Nat} {s : Bytes} {e : DecodeError},
    skipFieldAttributes n s = .error e → e = .truncatedInput := by
  intro n
  induction n with
  | zero => intro s e h; simp [skipFieldAttributes] at h
  | succ n ih =>
    intro s e h
    unfold skipFieldAttributes at h
    repeat' split at h
    all_goals try simp_all
    all_goals first
      | exact readU2_error (by assumption)
      | exact readU4_error (by assumption)
      | exact ih (by assumption)

theorem skipFields_error : ∀ {n : Nat} {s : Bytes} {e : DecodeError},
    skipFields n s = .error e → e = .truncatedInput := by
  intro n
  induction n with
  | zero => intro s e h; simp [skipFields] at h
  | succ n ih =>
    intro s e h
    unfold skipFields at h
    repeat' split at h
    all_goals try simp_all
    all_goals first
      | exact readU2_error (by assumption)
      | exact skipFieldAttributes_error (by assumption)
      | exact ih (by assumption)

theorem readMethodsSection_error {pool : List (Option CpInfo)} {count : Nat}
    {s : Bytes} {e : DecodeError} (h : readMethodsSection pool count s = .error e) :
    e = .truncatedInput ∨ e = .invalidReference ∨ e = .methodCountTooLarge := by
  unfold readMethodsSection at h
  repeat' split at h
  all_goals try simp_all
  all_goals first
    | exact Or.inl (readU2_error (by assumption))
    | exact (readMethods_error (by assumption)).imp id Or.inl

/-- Nothing after the version check can produce `unsupportedVersion`: the
decode of the remainder of the file fails only with truncation, an oversized
pool count, an oversized string length, an out-of-range attribute name
index, or an oversized method count. -/
theorem readFromPoolCount_error {m mi ma : Nat} {s : Bytes} {e : DecodeError}
    (h : readFromPoolCount m mi ma s = .error e) :
    e ≠ .unsupportedVersion := by
  unfold readFromPoolCount at h
  repeat' split at h
  all_goals try simp_all
  all_goals first
    | (cases h; simp)
    | (have hx := readU2_error (by assumption); simp_all)
    | (have hx := readConstantPool_error _ _ _ _ (by assumption);
       rcases hx with h2 | h2 <;> simp_all)
    | (have hx := skipFields_error (by assumption); simp_all)
    | (have hx := readMethodsSection_error (by assumption);
       rcases hx with h2 | h2 | h2 <;> simp_all)

theorem readCodeAttribute_exact {s : Bytes} {c : CodeAttribute} {s2 : Bytes}
    (h : readCodeAttribute s = .ok (c, s2)) : c.code.length = c.code_length := by
  unfold readCodeAttribute at h
  repeat' split at h
  all_goals try cases h
  all_goals simp_all
  all_goals exact readBytesN_ok_length (by assumption)

theorem readMethodAttribute_exact {pool : List (Option CpInfo)} {count : Nat}
    {cur opt : Option CodeAttribute} {s s2 : Bytes}
    (h : readMethodAttribute pool count cur s = .ok (opt, s2))
    (hcur : ∀ c, cur = some c → c.code.length = c.code_length) :
    ∀ c, opt = some c → c.code.length = c.code_length := by
  unfold readMethodAttribute at h
  repeat' split at h
  all_goals cases h
  all_goals first
    | exact hcur
    | (intro c hc; cases hc; exact readCodeAttribute_exact (by assumption))

theorem readMethodAttributes_exact {pool : List (Option CpInfo)} {count : Nat} :
    ∀ {n : Nat} {cur opt : Option CodeAttribute} {s s2 : Bytes},
    readMethodAttributes pool count n cur s = .ok (opt, s2) →
    (∀ c, cur = some c → c.code.length = c.code_length) →
    ∀ c, opt = some c → c.code.length = c.code_length := by
  intro n
  induction n with
  | zero =>
    intro cur opt s s2 h hcur
    simp only [readMethodAttributes, Except.ok.injEq, Prod.mk.injEq] at h
    obtain ⟨h1, -⟩ := h
    subst h1
    exact hcur
  | succ n ih =>
    intro cur opt s s2 h hcur
    unfold readMethodAttributes at h
    split at h
    · cases h
    · rename_i acc2 s22 heq
      exact ih h (readMethodAttribute_exact heq hcur)

theorem readMethod_exact {pool : List (Option CpInfo)} {count : Nat}
    {s s2 : Bytes} {m : MethodInfo}
    (h : readMethod pool count s = .ok (m, s2)) :
    ∀ c, m.code_attribute = some c → c.code.length = c.code_length := by
  unfold readMethod at h
  repeat' split at h
  all_goals cases h
  exact readMethodAttributes_exact (by assumption) (fun c hc => by cases hc)

theorem readMethods_exact {pool : List (Option CpInfo)} {count : Nat} :
    ∀ {n : Nat} {s s2 : Bytes} {ms : List MethodInfo},
    readMethods pool count n s = .ok (ms, s2) →
    ∀ m ∈ ms, ∀ c, m.code_attribute = some c → c.code.length = c.code_length := by
  intro n
  induction n with
  | zero =>
    intro s s2 ms h
    simp only [readMethods, Except.ok.injEq, Prod.mk.injEq] at h
    obtain ⟨h1, -⟩ := h
    subst h1
    intro m hm
    cases hm
  | succ n ih =>
    intro s s2 ms h
    unfold readMethods at h
    repeat' split at h
    all_goals cases h
    intro m hm
    rcases List.mem_cons.mp hm with hm1 | hm2
    · exact hm1 ▸ readMethod_exact (by assumption)
    · exact ih (by assumption) m hm2

theorem readMethodsSection_parts {pool : List (Option CpInfo)} {count : Nat}
    {s : Bytes} {mc : Nat} {ms : List MethodInfo} {srest : Bytes}
    (h : readMethodsSection pool count s = .ok (mc, ms, srest)) :
    ∃ s1, readMethods pool count mc s1 = .ok (ms, srest) ∧ mc ≤ 1000 := by
  unfold readMethodsSection at h
  cases h1 : readU2 s with
  | error e => rw [h1] at h; cases h
  | ok p =>
    obtain ⟨mc2, s1⟩ := p
    rw [h1] at h
    simp only at h
    by_cases hbig : mc2 > 1000
    · rw [if_pos hbig] at h; cases h
    · rw [if_neg hbig] at h
      cases h2 : readMethods pool count mc2 s1 with
      | error e => rw [h2] at h; cases h
      | ok p2 =>
        obtain ⟨ms2, s22⟩ := p2
        rw [h2] at h
        simp only [Except.ok.injEq, Prod.mk.injEq] at h
        obtain ⟨hmc, hms, hsrest⟩ := h
        subst hmc hms hsrest
        exact ⟨s1, h2, by omega⟩

theorem readFromPoolCount_parts {m mi ma : Nat} {s : Bytes} {cf : ClassFile}
    (h : readFromPoolCount m mi ma s = .ok cf) :
    (∃ s1 s2, readConstantPool cf.constant_pool_count 1
        (List.replicate cf.constant_pool_count none) s1 = .ok (cf.constant_pool, s2)) ∧
    (∃ s8 srest, readMethodsSection cf.constant_pool cf.constant_pool_count s8 =
        .ok (cf.methods_count, cf.methods, srest)) ∧
    cf.constant_pool_count ≤ MAX_CONSTANT_POOL_SIZE ∧
    cf.magic = m ∧ cf.minor_version = mi ∧ cf.major_version = ma := by
  unfold readFromPoolCount at h
  cases h1 : readU2 s with
  | error e => rw [h1] at h; cases h
  | ok p =>
    obtain ⟨cpCount, s1⟩ := p
    rw [h1] at h
    simp only at h
    by_cases hbig : cpCount > MAX_CONSTANT_POOL_SIZE
    · rw [if_pos hbig] at h; cases h
    · rw [if_neg hbig] at h
      cases h2 : readConstantPool cpCount 1 (List.replicate cpCount none) s1 with
      | error e => rw [h2] at h; cases h
      | ok p2 =>
        obtain ⟨pool, s2⟩ := p2
        rw [h2] at h
        simp only at h
        cases h3 : readU2 s2 with
        | error e => rw [h3] at h; cases h
        | ok p3 =>
          obtain ⟨accessFlags, s3⟩ := p3
          rw [h3] at h
          simp only at h
          cases h4 : readU2 s3 with
          | error e => rw [h4] at h; cases h
          | ok p4 =>
            obtain ⟨thisClass, s4⟩ := p4
            rw [h4] at h
            simp only at h
            cases h5 : readU2 s4 with
            | error e => rw [h5] at h; cases h
            | ok p5 =>
              obtain ⟨superClass, s5⟩ := p5
              rw [h5] at h
              simp only at h
              cases h6 : readU2 s5 with
              | error e => rw [h6] at h; cases h
              | ok p6 =>
                obtain ⟨ifaceCount, s6⟩ := p6
                rw [h6] at h
                simp only at h
                cases h7 : readU2 (skipBytes (ifaceCount * 2) s6) with
                | error e => rw [h7] at h; cases h
                | ok p7 =>
                  obtain ⟨fieldsCount, s7⟩ := p7
                  rw [h7] at h
                  simp only at h
                  cases h8 : skipFields fieldsCount s7 with
                  | error e => rw [h8] at h; cases h
                  | ok s8 =>
                    rw [h8] at h
                    simp only at h
                    cases h9 : readMethodsSection pool cpCount s8 with
                    | error e => rw [h9] at h; cases h
                    | ok p9 =>
                      obtain ⟨mc, ms, srest⟩ := p9
                      rw [h9] at h
                      simp only [Except.ok.injEq] at h
                      subst h
                      refine ⟨⟨s1, s2, by simpa using h2⟩, ⟨s8, srest, by simpa using h9⟩,
                        ?_, rfl, rfl, rfl⟩
                      simp only []
                      omega

theorem readClassFile_parts {input : Bytes} {cf : ClassFile}
    (h : readClassFile input = .ok cf) :
    (∃ s, readFromPoolCount JAVA_MAGIC cf.minor_version cf.major_version s = .ok cf) ∧
    cf.magic = JAVA_MAGIC ∧ 45 ≤ cf.major_version ∧ cf.major_version ≤ 69 := by
  unfold readClassFile at h
  cases h1 : readU4 input with
  | error e => rw [h1] at h; cases h
  | ok p =>
    obtain ⟨magic, s⟩ := p
    rw [h1] at h
    simp only at h
    by_cases hm : magic ≠ JAVA_MAGIC
    · rw [if_pos hm] at h; cases h
    · rw [if_neg hm] at h
      push_neg at hm
      cases h2 : readU2 s with
      | error e => rw [h2] at h; cases h
      | ok p2 =>
        obtain ⟨minor, s1⟩ := p2
        rw [h2] at h
        simp only at h
        cases h3 : readU2 s1 with
        | error e => rw [h3] at h; cases h
        | ok p3 =>
          obtain ⟨major, s2⟩ := p3
          rw [h3] at h
          simp only at h
          by_cases hv : major < 45 ∨ major > 69
          · rw [if_pos hv] at h; cases h
          · rw [if_neg hv] at h
            obtain ⟨-, -, -, hmagic, hminor, hmajor⟩ := readFromPoolCount_parts h
            subst hm
            refine ⟨⟨s2, ?_⟩, hmagic, by omega, by omega⟩
            rw [hminor, hmajor]
            exact h

/-! ## Claim theorems -/

/-- C1 (amended): a member attribute whose in-range name index references a
UTF8 pool entry whose stored bytes, compared as a C string (up to the first
NUL), equal the literal `Code` is decoded through the Code decoder: on
success the retained Code Block's max-stack, max-locals and instruction
byte count equal the corresponding big-endian input fields and its
instruction buffer is, byte for byte, the next `code_length` input bytes;
every other in-range attribute retains nothing and the cursor advances past
it by exactly its declared byte-length. -/
theorem c1_code_dispatch_spec :
    (∀ (pool : List (Option CpInfo)) (count : Nat) (cur : Option CodeAttribute)
        (n1 n2 a1 a2 a3 a4 : Nat) (rest : Bytes) (c : CodeAttribute) (s2 : Bytes),
      u2val n1 n2 < count →
      isCodeEntry (getSlot pool (u2val n1 n2)) = true →
      readCodeAttribute rest = .ok (c, s2) →
      readMethodAttribute pool count cur (n1 :: n2 :: a1 :: a2 :: a3 :: a4 :: rest) =
        .ok (some c, s2)) ∧
    (∀ (ms1 ms2 ml1 ml2 b1 b2 b3 b4 : Nat) (rest : Bytes) (c : CodeAttribute) (s2 : Bytes),
      readCodeAttribute (ms1 :: ms2 :: ml1 :: ml2 :: b1 :: b2 :: b3 :: b4 :: rest) =
        .ok (c, s2) →
      c.max_stack = u2val ms1 ms2 ∧ c.max_locals = u2val ml1 ml2 ∧
      c.code_length = u4val b1 b2 b3 b4 ∧
      c.code = rest.take (u4val b1 b2 b3 b4)) ∧
    (∀ (pool : List (Option CpInfo)) (count : Nat) (cur : Option CodeAttribute)
        (n1 n2 a1 a2 a3 a4 : Nat) (rest : Bytes),
      u2val n1 n2 < count →
      isCodeEntry (getSlot pool (u2val n1 n2)) = false →
      readMethodAttribute pool count cur (n1 :: n2 :: a1 :: a2 :: a3 :: a4 :: rest) =
        .ok (cur, skipBytes (u4val a1 a2 a3 a4) rest)) := by
  refine ⟨?_, ?_, ?_⟩
  · intro pool count cur n1 n2 a1 a2 a3 a4 rest c s2 hin hcode hC
    unfold readMethodAttribute
    simp [readU2, readU4, hin, hcode, hC]
  · intro ms1 ms2 ml1 ml2 b1 b2 b3 b4 rest c s2 h
    unfold readCodeAttribute at h
    simp only [readU2, readU4] at h
    repeat' split at h
    all_goals cases h
    obtain ⟨ht, -, -⟩ := readBytesN_ok _ _ _ _ (by assumption)
    exact ⟨rfl, rfl, rfl, ht.symm ▸ rfl⟩
  · intro pool count cur n1 n2 a1 a2 a3 a4 rest hin hcode
    unfold readMethodAttribute
    simp [readU2, readU4, hin, hcode]

def c1DispatchPool : List (Option CpInfo) :=
  [none, some (.utf8Info 4 [67, 111, 100, 101])]

theorem c1_code_dispatch_spec_witness :
    readMethodAttribute c1DispatchPool 2 none
        (0 :: 1 :: 0 :: 0 :: 0 :: 99 ::
          [0, 3, 0, 4, 0, 0, 0, 2, 7, 8, 0, 0, 0, 0]) =
      .ok (some { max_stack := 3, max_locals := 4, code_length := 2, code := [7, 8] },
        []) ∧
    readMethodAttribute c1DispatchPool 2 none
        (0 :: 0 :: 0 :: 0 :: 0 :: 3 :: [9, 9, 9, 9, 9]) =
      .ok (none, skipBytes 3 [9, 9, 9, 9, 9]) :=
  ⟨c1_code_dispatch_spec.1 c1DispatchPool 2 none 0 1 0 0 0 99
      [0, 3, 0, 4, 0, 0, 0, 2, 7, 8, 0, 0, 0, 0]
      { max_stack := 3, max_locals := 4, code_length := 2, code := [7, 8] } []
      (by decide) (by decide) (by decide),
   c1_code_dispatch_spec.2.2 c1DispatchPool 2 none 0 0 0 0 0 3 [9, 9, 9, 9, 9]
      (by decide) (by decide)⟩

/-- C1 counterexample: a UTF8 pool entry whose content is `Code` followed by
a NUL byte (and hence not textually equal to `Code`) still dispatches to the
Code decoder — the member record retains a Code Block and the cursor does
not advance by the attribute's declared byte-length (3), refuting the claim
that only content exactly equal to `Code` dispatches. -/
theorem c1_code_dispatch_cex :
    [67, 111, 100, 101, 0] ≠ codeLiteral ∧
    takeToNul [67, 111, 100, 101, 0] = codeLiteral ∧
    readMethodAttribute [none, some (.utf8Info 5 [67, 111, 100, 101, 0])] 2 none
        [0, 1, 0, 0, 0, 3, 0, 1, 0, 2, 0, 0, 0, 1, 9, 0, 0, 0, 0] =
      .ok (some { max_stack := 1, max_locals := 2, code_length := 1, code := [9] },
        []) := by
  refine ⟨by decide, by decide, by decide⟩

def c2TruncatedFile : Bytes :=
  [0xCA, 0xFE, 0xBA, 0xBE, 0, 0, 0, 52, 0, 1, 0, 0, 0, 0, 0, 0, 0, 0, 0, 0,
   0, 1, 0, 0, 0, 0, 0, 0, 0, 1, 0, 0, 0, 0, 0, 100]

/-- C2 counterexample: an input whose final member attribute declares a
100-byte payload of which zero bytes are present (a declared-length region
truncated at a field boundary) decodes successfully, because the payload is
skipped with a forward seek that succeeds past end of file and nothing is
read afterwards. -/
theorem c2_truncated_success_cex :
    c2TruncatedFile.length = 36 ∧
    (readClassFile c2TruncatedFile).isOk = true := by
  refine ⟨by decide, by decide⟩

/-- C2 (amended): truncation inside any fixed-width field or any
materialized declared-length region (string content, instruction bytes) is
a `truncatedInput` error, and a successful decode never holds a partial
buffer: every UTF8 pool entry holds exactly its declared byte count and
every retained Code Block holds exactly its declared instruction byte
count. Truncation inside a region that is only seeked over is not itself
detected (it surfaces only through a later read, if any). -/
theorem c2_truncation_detected :
    (∀ s : Bytes, s.length < 2 → readU2 s = .error .truncatedInput) ∧
    (∀ s : Bytes, s.length < 4 → readU4 s = .error .truncatedInput) ∧
    (∀ (n : Nat) (s : Bytes), s.length < n → readBytesN n s = .error .truncatedInput) ∧
    (∀ (input : Bytes) (cf : ClassFile), readClassFile input = .ok cf →
      (∀ j len bytes, getSlot cf.constant_pool j = some (.utf8Info len bytes) →
        bytes.length = len) ∧
      (∀ m ∈ cf.methods, ∀ c, m.code_attribute = some c →
        c.code.length = c.code_length)) := by
  refine ⟨readU2_truncated, readU4_truncated,
    fun n s h => readBytesN_truncated n s h, ?_⟩
  intro input cf h
  obtain ⟨⟨s, hfp⟩, -, -, -⟩ := readClassFile_parts h
  obtain ⟨⟨s1, s2, hpool⟩, ⟨s8, srest, hsec⟩, -, -, -, -⟩ :=
    readFromPoolCount_parts hfp
  constructor
  · intro j len bytes hj
    have hall := readConstantPool_all cf.constant_pool_count
      (fun e => ∀ len bytes, e = .utf8Info len bytes → bytes.length = len)
      (fun s e st s2 hE => readConstantPoolEntry_utf8_length hE)
      1 (List.replicate cf.constant_pool_count none) s1 cf.constant_pool s2 hpool
      (fun j e hj2 => by rw [getSlot_replicate] at hj2; cases hj2)
    exact hall j (.utf8Info len bytes) hj len bytes rfl
  · obtain ⟨s9, hms, -⟩ := readMethodsSection_parts hsec
    exact readMethods_exact hms

def c2GoodFile : Bytes :=
  [0xCA, 0xFE, 0xBA, 0xBE, 0, 0, 0, 52, 0, 2,
   1, 0, 4, 67, 111, 100, 101,
   0, 0, 0, 0, 0, 0, 0, 0, 0, 0, 0, 1,
   0, 1, 0, 1, 0, 1, 0, 1,
   0, 1, 0, 0, 0, 99,
   0, 3, 0, 4, 0, 0, 0, 2, 7, 8, 0, 0, 0, 0]

def c2GoodDecoded : ClassFile :=
  { magic := 0xCAFEBABE, minor_version := 0, major_version := 52,
    constant_pool_count := 2,
    constant_pool := [none, some (.utf8Info 4 [67, 111, 100, 101])],
    access_flags := 0, this_class := 0, super_class := 0, interfaces_count := 0,
    fields_count := 0, methods_count := 1,
    methods := [{ access_flags := 1, name_index := 1, descriptor_index := 1,
                  attributes_count := 1,
                  code_attribute := some { max_stack := 3, max_locals := 4,
                                           code_length := 2, code := [7, 8] } }] }

theorem c2_truncation_detected_witness :
    readU2 [7] = .error .truncatedInput ∧
    readU4 [7, 7, 7] = .error .truncatedInput ∧
    readBytesN 2 [7] = .error .truncatedInput ∧
    ([67, 111, 100, 101] : List Nat).length = 4 ∧
    ([7, 8] : List Nat).length = 2 :=
  ⟨c2_truncation_detected.1 [7] (by decide),
   c2_truncation_detected.2.1 [7, 7, 7] (by decide),
   c2_truncation_detected.2.2.1 2 [7] (by decide),
   (c2_truncation_detected.2.2.2 c2GoodFile c2GoodDecoded (by decide)).1
     1 4 [67, 111, 100, 101] (by decide),
   (c2_truncation_detected.2.2.2 c2GoodFile c2GoodDecoded (by decide)).2
     { access_flags := 1, name_index := 1, descriptor_index := 1,
       attributes_count := 1,
       code_attribute := some { max_stack := 3, max_locals := 4,
                                code_length := 2, code := [7, 8] } }
     (by decide)
     { max_stack := 3, max_locals := 4, code_length := 2, code := [7, 8] }
     (by decide)⟩

def c3LongFile : Bytes :=
  [0xCA, 0xFE, 0xBA, 0xBE, 0, 0, 0, 52, 0, 4,
   5, 1, 2, 3, 4, 5, 6, 7, 8,
   3, 9, 9, 9, 9,
   0, 0, 0, 0, 0, 0, 0, 0, 0, 0, 0, 0]

def c3LongDecoded : ClassFile :=
  { magic := 0xCAFEBABE, minor_version := 0, major_version := 52,
    constant_pool_count := 4,
    constant_pool := [none, some (.longInfo 5 16909060 84281096), none,
                      some (.integerInfo 151587081)],
    access_flags := 0, this_class := 0, super_class := 0, interfaces_count := 0,
    fields_count := 0, methods_count := 0, methods := [] }

/-- C3: in every successfully decoded container, pool slot 0 is never
populated; an 8-byte numeric-literal (`Long`/`Double`) entry is decoded
with slot count 2 after exactly its 8 payload bytes; and the slot following
every such entry in a successfully decoded pool remains unpopulated (the
driving loop, which starts at index 1 and stops at the declared count,
advances the index by the returned slot count). -/
theorem c3_pool_slot_invariants :
    (∀ (input : Bytes) (cf : ClassFile), readClassFile input = .ok cf →
      getSlot cf.constant_pool 0 = none) ∧
    (∀ (t h1 h2 h3 h4 l1 l2 l3 l4 : Nat) (s : Bytes),
      t = CONSTANT_Long ∨ t = CONSTANT_Double →
      readConstantPoolEntry (t :: h1 :: h2 :: h3 :: h4 :: l1 :: l2 :: l3 :: l4 :: s) =
        .ok (.longInfo t (u4val h1 h2 h3 h4) (u4val l1 l2 l3 l4), 2, s)) ∧
    (∀ (input : Bytes) (cf : ClassFile) (j t a b : Nat),
      readClassFile input = .ok cf →
      getSlot cf.constant_pool j = some (.longInfo t a b) →
      getSlot cf.constant_pool (j + 1) = none) := by
  have hinv : ∀ (input : Bytes) (cf : ClassFile), readClassFile input = .ok cf →
      getSlot cf.constant_pool 0 = none ∧
      (∀ j t a b, getSlot cf.constant_pool j = some (.longInfo t a b) →
        getSlot cf.constant_pool (j + 1) = none) := by
    intro input cf h
    obtain ⟨⟨s, hfp⟩, -, -, -⟩ := readClassFile_parts h
    obtain ⟨⟨s1, s2, hpool⟩, -, -, -, -, -⟩ := readFromPoolCount_parts hfp
    obtain ⟨h0, h2⟩ := readConstantPool_invariant cf.constant_pool_count 1
      (List.replicate cf.constant_pool_count none) s1 cf.constant_pool s2 hpool
      (by omega)
      (fun j hj => getSlot_replicate _ _)
      (fun j t a b hj => by rw [getSlot_replicate] at hj; cases hj)
    exact ⟨by rw [h0, getSlot_replicate], h2⟩
  refine ⟨fun input cf h => (hinv input cf h).1, ?_,
    fun input cf j t a b h hj => (hinv input cf h).2 j t a b hj⟩
  intro t h1 h2 h3 h4 l1 l2 l3 l4 s ht
  rcases ht with ht | ht <;> subst ht <;> rfl

theorem c3_pool_slot_invariants_witness :
    getSlot c3LongDecoded.constant_pool 0 = none ∧
    readConstantPoolEntry (5 :: 1 :: 2 :: 3 :: 4 :: 5 :: 6 :: 7 :: 8 :: ([] : Bytes)) =
      .ok (.longInfo 5 (u4val 1 2 3 4) (u4val 5 6 7 8), 2, []) ∧
    getSlot c3LongDecoded.constant_pool 2 = none :=
  ⟨c3_pool_slot_invariants.1 c3LongFile c3LongDecoded (by decide),
   c3_pool_slot_invariants.2.1 5 1 2 3 4 5 6 7 8 [] (Or.inl rfl),
   c3_pool_slot_invariants.2.2 c3LongFile c3LongDecoded 1 5 (u4val 1 2 3 4)
     (u4val 5 6 7 8) (by decide) (by decide)⟩

/-- C4: the 4-byte numeric-literal tag `CONSTANT_Float` (4) falls through to
the unknown-tag arm of the entry decoder: a Float entry consumes zero
payload bytes and is recorded as an unrecognized variant with slot count 1,
instead of reading its four payload bytes the way the other 4-byte numeric
literal (`CONSTANT_Integer`, shown for contrast) is read. -/
theorem c4_float_tag_payload_not_read :
    readConstantPoolEntry (CONSTANT_Float :: [1, 2, 3, 4]) =
      .ok (.unknownTag CONSTANT_Float, 1, [1, 2, 3, 4]) ∧
    readConstantPoolEntry (CONSTANT_Integer :: [1, 2, 3, 4]) =
      .ok (.integerInfo (u4val 1 2 3 4), 1, []) := by
  exact ⟨by decide, by decide⟩

/-- C5: a member attribute whose 2-byte name index is at or beyond the pool
count is fatal: after the name-index and length fields are read, the
attribute decoder returns `invalidReference` without consuming the payload,
and a failing member decode aborts the whole member loop, so the error
surfaces even when further members remain. -/
theorem c5_out_of_range_attr_fatal :
    (∀ (pool : List (Option CpInfo)) (count : Nat) (cur : Option CodeAttribute)
        (n1 n2 a1 a2 a3 a4 : Nat) (rest : Bytes),
      count ≤ u2val n1 n2 →
      readMethodAttribute pool count cur (n1 :: n2 :: a1 :: a2 :: a3 :: a4 :: rest) =
        .error .invalidReference) ∧
    (∀ (pool : List (Option CpInfo)) (count n : Nat) (s : Bytes) (e : DecodeError),
      readMethod pool count s = .error e →
      readMethods pool count (n + 1) s = .error e) := by
  constructor
  · intro pool count cur n1 n2 a1 a2 a3 a4 rest hge
    unfold readMethodAttribute
    simp only [readU2, readU4]
    rw [if_neg (by omega)]
  · intro pool count n s e h
    unfold readMethods
    rw [h]

def c5BadMethodBytes : Bytes := [0, 0, 0, 0, 0, 0, 0, 1, 0, 5, 0, 0, 0, 0]

theorem c5_out_of_range_attr_fatal_witness :
    readMethodAttribute [none] 1 none (0 :: 5 :: 0 :: 0 :: 0 :: 0 :: [1, 2, 3]) =
      .error .invalidReference ∧
    readMethods [none] 1 (1 + 1) c5BadMethodBytes = .error .invalidReference :=
  ⟨c5_out_of_range_attr_fatal.1 [none] 1 none 0 5 0 0 0 0 [1, 2, 3] (by decide),
   c5_out_of_range_attr_fatal.2 [none] 1 1 c5BadMethodBytes .invalidReference
     (by decide)⟩

/-- C6: a pool entry whose leading tag byte is none of the recognized tag
values consumes zero additional input bytes, is recorded as an unrecognized
variant, and returns success with slot count 1, so the pool decode
continues without error. -/
theorem c6_unknown_tag_tolerated :
    ∀ (tag : Nat) (s : Bytes),
      tag ≠ CONSTANT_Class → tag ≠ CONSTANT_Utf8 → tag ≠ CONSTANT_Integer →
      tag ≠ CONSTANT_String → tag ≠ CONSTANT_Fieldref → tag ≠ CONSTANT_Methodref →
      tag ≠ CONSTANT_InterfaceMethodref → tag ≠ CONSTANT_NameAndType →
      tag ≠ CONSTANT_Long → tag ≠ CONSTANT_Double →
      readConstantPoolEntry (tag :: s) = .ok (.unknownTag tag, 1, s) := by
  intro tag s h7 h1 h3 h8 h9 h10 h11 h12 h5 h6
  unfold readConstantPoolEntry
  simp only [readU1]
  rw [if_neg h7, if_neg h1, if_neg h3, if_neg h8,
    if_neg (by tauto), if_neg h12, if_neg (by tauto)]

theorem c6_unknown_tag_tolerated_witness :
    readConstantPoolEntry (2 :: [77, 88]) = .ok (.unknownTag 2, 1, [77, 88]) :=
  c6_unknown_tag_tolerated 2 [77, 88] (by decide) (by decide) (by decide) (by decide)
    (by decide) (by decide) (by decide) (by decide) (by decide) (by decide)

/-- C7: each declared size has a fixed ceiling whose violation aborts with
a fatal error and no partial container: a pool count above 32767 aborts the
whole decode with `invalidPoolCount`; a string-table length above 65535 is
rejected by the UTF8 entry decoder before any content byte is consumed
(the check precedes the buffer allocation in the C code); a method count
above 1000 aborts the methods section. -/
theorem c7_size_ceilings_fatal :
    (∀ (mn1 mn2 mj1 mj2 p1 p2 : Nat) (rest : Bytes),
      45 ≤ u2val mj1 mj2 → u2val mj1 mj2 ≤ 69 →
      MAX_CONSTANT_POOL_SIZE < u2val p1 p2 →
      readClassFile (0xCA :: 0xFE :: 0xBA :: 0xBE :: mn1 :: mn2 :: mj1 :: mj2 ::
        p1 :: p2 :: rest) = .error .invalidPoolCount) ∧
    (∀ (len : Nat) (s : Bytes), MAX_STRING_LENGTH < len →
      readUtf8Body len s = .error .utf8TooLong) ∧
    (∀ (pool : List (Option CpInfo)) (count m1 m2 : Nat) (s : Bytes),
      1000 < u2val m1 m2 →
      readMethodsSection pool count (m1 :: m2 :: s) = .error .methodCountTooLarge) := by
  refine ⟨?_, ?_, ?_⟩
  · intro mn1 mn2 mj1 mj2 p1 p2 rest hlo hhi hbig
    unfold readClassFile
    simp only [readU4, readU2]
    rw [if_neg (by decide), if_neg (by omega)]
    unfold readFromPoolCount
    simp only [readU2]
    rw [if_pos hbig]
  · intro len s hlen
    unfold readUtf8Body
    rw [if_pos hlen]
  · intro pool count m1 m2 s hbig
    unfold readMethodsSection
    simp only [readU2]
    rw [if_pos hbig]

theorem c7_size_ceilings_fatal_witness :
    readClassFile (0xCA :: 0xFE :: 0xBA :: 0xBE :: 0 :: 0 :: 0 :: 52 ::
      128 :: 0 :: []) = .error .invalidPoolCount ∧
    readUtf8Body 65536 [1, 2, 3] = .error .utf8TooLong ∧
    readMethodsSection [] 0 (4 :: 0 :: []) = .error .methodCountTooLarge :=
  ⟨c7_size_ceilings_fatal.1 0 0 0 52 128 0 [] (by decide) (by decide) (by decide),
   c7_size_ceilings_fatal.2.1 65536 [1, 2, 3] (by decide),
   c7_size_ceilings_fatal.2.2 [] 0 4 0 [] (by decide)⟩

/-- C8: when the first four input bytes do not assemble to the fixed magic
constant, the decode fails with `formatMismatch` after reading exactly
those four bytes: the result is the same for every continuation `rest`, so
no byte beyond the fourth is examined before the failure surfaces. -/
theorem c8_magic_mismatch_fatal :
    ∀ (b1 b2 b3 b4 : Nat) (rest : Bytes),
      u4val b1 b2 b3 b4 ≠ JAVA_MAGIC →
      readClassFile (b1 :: b2 :: b3 :: b4 :: rest) = .error .formatMismatch := by
  intro b1 b2 b3 b4 rest hne
  unfold readClassFile
  simp only [readU4]
  rw [if_pos hne]

theorem c8_magic_mismatch_fatal_witness :
    readClassFile (0 :: 1 :: 2 :: 3 :: [9, 9, 9]) = .error .formatMismatch :=
  c8_magic_mismatch_fatal 0 1 2 3 [9, 9, 9] (by decide)

/-- C9: decode fails with `unsupportedVersion` exactly when the 2-byte major
version is outside the inclusive interval 45..69: an out-of-range major
fails at the version check, an in-range major proceeds past it into the
pool-count stage, and no stage after the version check can produce
`unsupportedVersion`. -/
theorem c9_version_gate :
    (∀ (mn1 mn2 mj1 mj2 : Nat) (rest : Bytes),
      u2val mj1 mj2 < 45 ∨ 69 < u2val mj1 mj2 →
      readClassFile (0xCA :: 0xFE :: 0xBA :: 0xBE :: mn1 :: mn2 :: mj1 :: mj2 :: rest) =
        .error .unsupportedVersion) ∧
    (∀ (mn1 mn2 mj1 mj2 : Nat) (rest : Bytes),
      45 ≤ u2val mj1 mj2 → u2val mj1 mj2 ≤ 69 →
      readClassFile (0xCA :: 0xFE :: 0xBA :: 0xBE :: mn1 :: mn2 :: mj1 :: mj2 :: rest) =
        readFromPoolCount JAVA_MAGIC (u2val mn1 mn2) (u2val mj1 mj2) rest) ∧
    (∀ (m mi ma : Nat) (s : Bytes),
      readFromPoolCount m mi ma s ≠ .error .unsupportedVersion) := by
  refine ⟨?_, ?_, ?_⟩
  · intro mn1 mn2 mj1 mj2 rest hout
    unfold readClassFile
    simp only [readU4, readU2]
    rw [if_neg (by decide), if_pos hout]
  · intro mn1 mn2 mj1 mj2 rest hlo hhi
    unfold readClassFile
    simp only [readU4, readU2]
    rw [if_neg (by decide), if_neg (by omega)]
    have hm : u4val 0xCA 0xFE 0xBA 0xBE = JAVA_MAGIC := by decide
    rw [hm]
  · intro m mi ma s hcontra
    exact readFromPoolCount_error hcontra rfl

theorem c9_version_gate_witness :
    readClassFile (0xCA :: 0xFE :: 0xBA :: 0xBE :: 0 :: 0 :: 0 :: 70 :: []) =
      .error .unsupportedVersion ∧
    readClassFile (0xCA :: 0xFE :: 0xBA :: 0xBE :: 0 :: 0 :: 0 :: 52 :: []) =
      readFromPoolCount JAVA_MAGIC (u2val 0 0) (u2val 0 52) [] ∧
    readFromPoolCount 7 0 52 [] ≠ .error .unsupportedVersion :=
  ⟨c9_version_gate.1 0 0 0 70 [] (by decide),
   c9_version_gate.2.1 0 0 0 52 [] (by decide) (by decide),
   c9_version_gate.2.2 7 0 52 []⟩

/-- C10: for an attribute dispatched to the Code decoder, the declared
4-byte attribute byte-length is never used or validated: two inputs that
differ only in those four bytes decode to identical results (same retained
Code Block, same remaining stream), the consumed extent being determined by
the Code structure's own internal fields alone. -/
theorem c10_code_length_field_unused :
    ∀ (pool : List (Option CpInfo)) (count : Nat) (cur : Option CodeAttribute)
      (n1 n2 a1 a2 a3 a4 b1 b2 b3 b4 : Nat) (rest : Bytes),
      u2val n1 n2 < count →
      isCodeEntry (getSlot pool (u2val n1 n2)) = true →
      readMethodAttribute pool count cur (n1 :: n2 :: a1 :: a2 :: a3 :: a4 :: rest) =
        readMethodAttribute pool count cur (n1 :: n2 :: b1 :: b2 :: b3 :: b4 :: rest) := by
  intro pool count cur n1 n2 a1 a2 a3 a4 b1 b2 b3 b4 rest hin hcode
  unfold readMethodAttribute
  simp [readU2, readU4, hin, hcode]

def c10Pool : List (Option CpInfo) := [none, some (.utf8Info 4 [67, 111, 100, 101])]

theorem c10_code_length_field_unused_witness :
    readMethodAttribute c10Pool 2 none
        (0 :: 1 :: 0 :: 0 :: 0 :: 7 :: [0, 1, 0, 1, 0, 0, 0, 1, 42, 0, 0, 0, 0]) =
      readMethodAttribute c10Pool 2 none
        (0 :: 1 :: 255 :: 255 :: 255 :: 255 :: [0, 1, 0, 1, 0, 0, 0, 1, 42, 0, 0, 0, 0]) :=
  c10_code_length_field_unused c10Pool 2 none 0 1 0 0 0 7 255 255 255 255
    [0, 1, 0, 1, 0, 0, 0, 1, 42, 0, 0, 0, 0] (by decide) (by decide)

end DiyJvm
